import Mathlib

/-!
Shallow embedding of the backup/restore transfer module of
`backend/backup.py`: the `/backup` download handler's range negotiation
and chunked streaming loop, the `/restore` upload handler with chunk
reassembly, checksum gating and `perform_restore`, the helpers
`backup_current_databases` and `cleanup_operation_later`.

External collaborators enter as function parameters:
`decode : Bytes → Option Archive` stands for the `zipfile` library
(`is_zipfile`/`ZipFile`: `none` means the bytes are not a valid zip),
and `digest : Bytes → String` stands for `hashlib.md5(...).hexdigest()`
(`calculate_file_checksum`).
-/

namespace BackupRestore

/-- File contents as a byte list. -/
abbrev Bytes := List Nat

/-- A zip archive's view through `namelist`/`open`: entry names paired
with entry contents. -/
abbrev Archive := List (String × Bytes)

/-- Filesystem: path to file contents (`none` = no such file). -/
abbrev FS := String → Option Bytes

/-- `DATABASE_PATHS` from backup.py (lines 15-18). -/
def DATABASE_PATHS : List String :=
  ["database/books_data.db", "database/books_static.db"]

/-- `os.path.basename`: the component after the last slash. -/
def baseName (p : String) : String :=
  ⟨p.data.foldl (fun acc c => if c = '/' then [] else acc ++ [c]) []⟩

/-- The timestamped snapshot name built by `backup_current_databases`:
`f"\x7bdb_path\x7d.\x7btimestamp\x7d.bak"` (line 382). -/
def bakName (p ts : String) : String := p ++ "." ++ ts ++ ".bak"

/-- Write one file into the filesystem. -/
def fsWrite (fs : FS) (p : String) (d : Bytes) : FS :=
  fun q => if q = p then some d else fs q

/-- Observable filesystem effects of `perform_restore`: copying a
database aside to its `.bak` name, and overwriting a database
destination with archive contents. -/
inductive Event
  | snapshot (p : String)
  | write (p : String)
deriving DecidableEq

/-- `backup_current_databases` (lines 374-385): for each database path
that exists, copy its contents to the timestamped `.bak` name.  Returns
the new filesystem and the snapshot events in loop order. -/
def backupFiles (ts : String) (fs : FS) : List String → FS × List Event
  | [] => (fs, [])
  | p :: rest =>
    match fs p with
    | some d =>
      let out := backupFiles ts (fsWrite fs (bakName p ts) d) rest
      (out.1, .snapshot p :: out.2)
    | none => backupFiles ts fs rest

/-- The extraction loop of `perform_restore` (lines 337-343): for each
database path whose base name appears in the archive's entry list,
overwrite the destination with the entry's bytes.  Returns the new
filesystem, the list of restored paths, and the write events. -/
def extractFiles (ar : Archive) (fs : FS) : List String → FS × List String × List Event
  | [] => (fs, [], [])
  | p :: rest =>
    match List.lookup (baseName p) ar with
    | some d =>
      let out := extractFiles ar (fsWrite fs p d) rest
      (out.1, p :: out.2.1, .write p :: out.2.2)
    | none => extractFiles ar fs rest

/-- The `status` field of a `TransferOperation` record. -/
inductive OpStatus
  | uploading
  | restoring
  | completed
  | failed
deriving DecidableEq

/-- One `OPERATIONS[upload_id]` record (lines 199-206, 352-355). -/
structure Operation where
  status : OpStatus
  chunksReceived : Nat
  totalChunks : Nat
  restoredFiles : Option (List String)
  completedAt : Bool
deriving DecidableEq

/-- Point update of the operation registry at one key. -/
def updOps (ops : String → Option Operation) (id : String) (o : Option Operation) :
    String → Option Operation :=
  fun k => if k = id then o else ops k

/-- In-place field mutation of the registry record at one key
(`OPERATIONS[id]['status'] = ...`); no-op when the key is absent. -/
def mapOp (ops : String → Option Operation) (id : String) (f : Operation → Operation) :
    String → Option Operation :=
  fun k => if k = id then (ops k).map f else ops k

/-- The distinguishable responses of the `/restore` handler. -/
inductive RestoreResponse
  | sessionNotFound
  | noFile
  | chunkReceived (received total : Nat)
  | checksumMismatch
  | invalidZip
  | nothingRestored
  | restoreOk (files : List String)
  | serverError
deriving DecidableEq

/-- Whole server state touched by the `/restore` handler: the
`OPERATIONS` registry, per-operation staging chunk files
(`temp_uploads/<id>/chunk_<n>`), per-operation `backup.zip` and
`combined.zip` files, the database filesystem, and an instrumentation
counter of `perform_restore` invocations. -/
structure ServerState where
  ops : String → Option Operation
  staging : String → Nat → Option Bytes
  singleFiles : String → Option Bytes
  combinedFiles : String → Option Bytes
  fs : FS
  restoreCalls : Nat

/-- `perform_restore` (lines 310-371): mark `restoring`; reject a
non-zip; snapshot the current databases; extract recognized entries
over their destinations; fail when nothing was restored, else mark
`completed`.  Returns the new state, the response, and the filesystem
event trace. -/
def performRestore (decode : Bytes → Option Archive) (ts : String)
    (st : ServerState) (zipBytes : Bytes) (opId : String) :
    ServerState × RestoreResponse × List Event :=
  let st := { st with
    restoreCalls := st.restoreCalls + 1,
    ops := mapOp st.ops opId (fun o => { o with status := .restoring }) }
  match decode zipBytes with
  | none =>
    ({ st with ops := mapOp st.ops opId (fun o => { o with status := .failed }) },
     .invalidZip, [])
  | some ar =>
    let bak := backupFiles ts st.fs DATABASE_PATHS
    let ext := extractFiles ar bak.1 DATABASE_PATHS
    let st := { st with fs := ext.1 }
    if ext.2.1 = [] then
      ({ st with ops := mapOp st.ops opId (fun o => { o with status := .failed }) },
       .nothingRestored, bak.2 ++ ext.2.2)
    else
      ({ st with ops := mapOp st.ops opId (fun o =>
            { o with status := .completed, completedAt := true,
                     restoredFiles := some ext.2.1 }) },
       .restoreOk ext.2.1, bak.2 ++ ext.2.2)

/-- The chunk-combination loop (lines 239-244): read
`chunk_0 .. chunk_(n-1)` in index order, appending each to
`combined.zip`.  A missing chunk file raises `FileNotFoundError`,
leaving the bytes written so far in the file.  Returns the bytes
written and whether every chunk was found. -/
def combineList (ch : Nat → Option Bytes) : List Nat → Bytes × Bool
  | [] => ([], true)
  | i :: rest =>
    match ch i with
    | none => ([], false)
    | some d =>
      let out := combineList ch rest
      (d ++ out.1, out.2)

/-- The checksum gate (lines 246-258 and 277-288):
`if client_checksum:` skips the check when the form field is absent
or the empty string (Python falsiness); otherwise the request is
rejected when the computed digest differs. -/
def checksumRejects (digest : Bytes → String) (c? : Option String) (data : Bytes) : Bool :=
  match c? with
  | none => false
  | some c => !(c == "") && !(digest data == c)

/-- One `POST /restore` request's form fields: `chunk` (`none` =
single-shot upload), `total_chunks` (default 1), `checksum`, and the
`backup_file` part (`none` also covers an empty filename). -/
structure RestoreRequest where
  uploadId : String
  chunk : Option Nat
  totalChunksField : Nat
  checksum : Option String
  fileBytes : Option Bytes

/-- Lines 197-209: a single-shot request or chunk index 0 (re)creates
the registry record, resetting its counters; the staging directory is
kept (`os.makedirs(..., exist_ok=True)` leaves existing chunk files). -/
def resetOp (st : ServerState) (req : RestoreRequest) : ServerState :=
  if req.chunk = none ∨ req.chunk = some 0 then
    { st with ops :=
        updOps st.ops req.uploadId (some ⟨.uploading, 0, req.totalChunksField, none, false⟩) }
  else st

/-- The `/restore` handler `restore_database` (lines 186-298): reset or
look up the operation, check the file part, then either store a chunk
(combining and restoring once the received count reaches the total) or
store a single-shot upload and restore it. -/
def restoreStep (decode : Bytes → Option Archive) (digest : Bytes → String) (ts : String)
    (st : ServerState) (req : RestoreRequest) : ServerState × RestoreResponse :=
  let st := resetOp st req
  match st.ops req.uploadId with
  | none => (st, .sessionNotFound)
  | some op =>
    match req.fileBytes with
    | none => (st, .noFile)
    | some data =>
      match req.chunk with
      | some idx =>
        let st := { st with
          staging := fun k =>
            if k = req.uploadId then
              (fun j => if j = idx then some data else st.staging k j)
            else st.staging k,
          ops :=
            updOps st.ops req.uploadId (some { op with chunksReceived := op.chunksReceived + 1 }) }
        if op.chunksReceived + 1 ≥ op.totalChunks then
          let comb := combineList (st.staging req.uploadId) (List.range op.totalChunks)
          let st := { st with combinedFiles := fun k =>
            if k = req.uploadId then some comb.1 else st.combinedFiles k }
          if comb.2 then
            if checksumRejects digest req.checksum comb.1 then
              ({ st with ops := mapOp st.ops req.uploadId (fun o => { o with status := .failed }) },
               .checksumMismatch)
            else
              let out := performRestore decode ts st comb.1 req.uploadId
              (out.1, out.2.1)
          else
            ({ st with ops := mapOp st.ops req.uploadId (fun o => { o with status := .failed }) },
             .serverError)
        else
          (st, .chunkReceived (op.chunksReceived + 1) op.totalChunks)
      | none =>
        let st := { st with singleFiles := fun k =>
          if k = req.uploadId then some data else st.singleFiles k }
        if checksumRejects digest req.checksum data then
          ({ st with ops := mapOp st.ops req.uploadId (fun o => { o with status := .failed }) },
           .checksumMismatch)
        else
          let out := performRestore decode ts st data req.uploadId
          (out.1, out.2.1)

/-- A sequence of `/restore` requests handled in order. -/
def runRestore (decode : Bytes → Option Archive) (digest : Bytes → String) (ts : String)
    (st : ServerState) (reqs : List RestoreRequest) : ServerState :=
  reqs.foldl (fun s r => (restoreStep decode digest ts s r).1) st

/-- `cleanup_operation_later` (lines 428-443) once the delay elapses:
remove the staging directory (chunk files, `backup.zip`,
`combined.zip`) and delete the registry record; no-op when the id is
already gone. -/
def cleanupOperation (st : ServerState) (id : String) : ServerState :=
  match st.ops id with
  | none => st
  | some _ =>
    { st with
      staging := fun k => if k = id then (fun _ => none) else st.staging k,
      singleFiles := fun k => if k = id then none else st.singleFiles k,
      combinedFiles := fun k => if k = id then none else st.combinedFiles k,
      ops := updOps st.ops id none }

/-- `f.read(n)` on a file positioned at `pos`: a negative `n` reads to
end of file (Python semantics), otherwise at most `n` bytes. -/
def readAt (file : Bytes) (pos : Nat) (n : Int) : Bytes :=
  if n < 0 then file.drop pos else (file.drop pos).take n.toNat

/-- The streaming generator of the `/backup` handler (lines 85-95),
fueled for structural recursion: each non-final iteration yields at
least one byte, so `remaining.toNat` steps always suffice (see
`genLoop_eq`). -/
def genLoopF (file : Bytes) (cs : Int) : Nat → Nat → Int → Bytes
  | 0, _, _ => []
  | fuel + 1, pos, remaining =>
    if remaining ≤ 0 then []
    else
      let data := readAt file pos (min cs remaining)
      if data = [] then []
      else data ++ genLoopF file cs fuel (pos + data.length) (remaining - data.length)

/-- The streaming generator: seek to `pos`, then repeatedly read
`min(chunk_size, remaining)` bytes, stopping on an empty read or when
`remaining` is exhausted. -/
def genLoop (file : Bytes) (cs : Int) (pos : Nat) (remaining : Int) : Bytes :=
  genLoopF file cs remaining.toNat pos remaining

/-- The parsed `Range: bytes=a-b` header: `given` carries the two
sides of the dash (`none` = empty on that side, defaulting to `0` and
`file_size - 1`); `malformed` is the int-parse failure path (400). -/
inductive RangeHdr
  | absent
  | malformed
  | given (s e : Option Nat)

/-- The observable download response: HTTP status, streamed body,
`Content-Length` header value, `Content-Range` triple `(start, end,
total)` when present. -/
structure DownloadResp where
  status : Nat
  body : Bytes
  contentLength : Option Int
  contentRange : Option (Nat × Nat × Nat)
deriving DecidableEq

/-- The `/backup` handler `backup_database` (lines 56-121) after the
archive has been built: resolve the range window against the archive
bytes and stream it.  `start >= file_size` is 416; `end >= file_size`
is clamped; a request with a Range header answers 206 with a
`Content-Range` descriptor, otherwise 200. -/
def backupDownload (file : Bytes) (hdr : RangeHdr) (cs : Int) : DownloadResp :=
  let L := file.length
  match hdr with
  | .malformed => ⟨400, [], none, none⟩
  | .absent =>
    if 0 ≥ L then ⟨416, [], none, none⟩
    else
      let cl : Int := ((L : Int) - 1) - 0 + 1
      ⟨200, genLoop file cs 0 cl, some cl, none⟩
  | .given s? e? =>
    let s := s?.getD 0
    let e0 := e?.getD (L - 1)
    if s ≥ L then ⟨416, [], none, none⟩
    else
      let e := if e0 ≥ L then L - 1 else e0
      let cl : Int := (e : Int) - (s : Int) + 1
      ⟨206, genLoop file cs s cl, some cl, some (s, e, L)⟩

/-- Spec-side predicate for claim C8: `rs` is a list of inclusive byte
ranges tiling `[s, L)` in offset order, non-overlapping and in
bounds. -/
def covers (L : Nat) : Nat → List (Nat × Nat) → Bool
  | s, [] => decide (s = L)
  | s, (a, b) :: rest =>
    decide (a = s) && decide (s ≤ b) && decide (b < L) && covers L (b + 1) rest

/-! ### Concrete fixtures used by witnesses and counterexamples -/

/-- Empty server state: no registry entries, no staged files, empty
filesystem. -/
def stEmpty : ServerState :=
  ⟨fun _ => none, fun _ _ => none, fun _ => none, fun _ => none, fun _ => none, 0⟩

/-- A chunk-upload request for index `i` carrying `data i`, with no
checksum field. -/
def chunkReq (u : String) (n : Nat) (data : Nat → Bytes) (i : Nat) : RestoreRequest :=
  ⟨u, some i, n, none, some (data i)⟩

/-- Zip-decoder fixture: `[7]` is a valid archive holding
`books_data.db`; everything else is not a zip. -/
def decodeBooks : Bytes → Option Archive :=
  fun b => if b = [7] then some [("books_data.db", [1])] else none

/-- Zip-decoder fixture: every byte string is a valid archive holding
only an entry no database path matches. -/
def decodeOther : Bytes → Option Archive := fun _ => some [("other.txt", [9])]

/-- Digest fixture. -/
def digestConst : Bytes → String := fun _ => "X"

/-- State fixture: both database files exist and operation `"u"` is
registered mid-upload. -/
def stBoth : ServerState :=
  ⟨fun k => if k = "u" then some ⟨.uploading, 0, 1, none, false⟩ else none,
   fun _ _ => none, fun _ => none, fun _ => none,
   fun p => if p ∈ DATABASE_PATHS then some [3] else none, 0⟩

/-- State fixture: operation `"u"` expects 2 chunks, has received 1,
and chunk 0 is staged. -/
def stChunk : ServerState :=
  ⟨fun k => if k = "u" then some ⟨.uploading, 1, 2, none, false⟩ else none,
   fun k j => if k = "u" ∧ j = 0 then some [5] else none,
   fun _ => none, fun _ => none, fun _ => none, 0⟩

/-! ### Helper lemmas -/

theorem updOps_apply_ne (ops : String → Option Operation) (id k : String)
    (o : Option Operation) (h : k ≠ id) : updOps ops id o k = ops k := by
  simp [updOps, h]

theorem updOps_apply_self (ops : String → Option Operation) (id : String)
    (o : Option Operation) : updOps ops id o id = o := by
  simp [updOps]

theorem mapOp_apply_ne (ops : String → Option Operation) (id k : String)
    (f : Operation → Operation) (h : k ≠ id) : mapOp ops id f k = ops k := by
  simp [mapOp, h]

theorem mapOp_apply_self (ops : String → Option Operation) (id : String)
    (f : Operation → Operation) : mapOp ops id f id = (ops id).map f := by
  simp [mapOp]

theorem combineList_all_some (ch : Nat → Option Bytes) (d : Nat → Bytes)
    (l : List Nat) (h : ∀ i ∈ l, ch i = some (d i)) :
    combineList ch l = ((l.map d).flatten, true) := by
  induction l with
  | nil => rfl
  | cons i rest ih =>
    have hi := h i (by simp)
    simp only [combineList, hi, ih (fun j hj => h j (by simp [hj])), List.map_cons,
      List.flatten_cons]

theorem combineList_missing (ch : Nat → Option Bytes) (l : List Nat)
    (i : Nat) (hi : i ∈ l) (hnone : ch i = none) :
    (combineList ch l).2 = false := by
  induction l with
  | nil => simp at hi
  | cons j rest ih =>
    rcases List.mem_cons.mp hi with h | h
    · subst h; simp [combineList, hnone]
    · cases hj : ch j with
      | none => simp [combineList, hj]
      | some d => simp [combineList, hj, ih h]

theorem performRestore_resp (decode : Bytes → Option Archive) (ts : String)
    (st : ServerState) (zb : Bytes) (opId : String) :
    (performRestore decode ts st zb opId).2.1 = .invalidZip ∨
    (performRestore decode ts st zb opId).2.1 = .nothingRestored ∨
    ∃ fl, (performRestore decode ts st zb opId).2.1 = .restoreOk fl := by
  unfold performRestore
  cases decode zb with
  | none => simp
  | some ar =>
    by_cases h : (extractFiles ar (backupFiles ts st.fs DATABASE_PATHS).1 DATABASE_PATHS).2.1 = []
    · simp [h]
    · simp [h]

theorem performRestore_resp_ne_mismatch (decode : Bytes → Option Archive) (ts : String)
    (st : ServerState) (zb : Bytes) (opId : String) :
    (performRestore decode ts st zb opId).2.1 ≠ RestoreResponse.checksumMismatch := by
  rcases performRestore_resp decode ts st zb opId with h | h | ⟨fl, h⟩ <;> simp [h]

theorem performRestore_combinedFiles (decode : Bytes → Option Archive) (ts : String)
    (st : ServerState) (zb : Bytes) (opId : String) :
    (performRestore decode ts st zb opId).1.combinedFiles = st.combinedFiles := by
  unfold performRestore
  cases decode zb with
  | none => simp
  | some ar =>
    by_cases h : (extractFiles ar (backupFiles ts st.fs DATABASE_PATHS).1 DATABASE_PATHS).2.1 = []
    · simp [h]
    · simp [h]

theorem performRestore_ops_ne (decode : Bytes → Option Archive) (ts : String)
    (st : ServerState) (zb : Bytes) (opId u : String) (h : u ≠ opId) :
    (performRestore decode ts st zb opId).1.ops u = st.ops u := by
  unfold performRestore
  cases decode zb with
  | none => simp [mapOp_apply_ne _ _ _ _ h]
  | some ar =>
    by_cases hres :
        (extractFiles ar (backupFiles ts st.fs DATABASE_PATHS).1 DATABASE_PATHS).2.1 = []
    · simp [hres, mapOp_apply_ne _ _ _ _ h]
    · simp [hres, mapOp_apply_ne _ _ _ _ h]

theorem fsWrite_apply_ne (fs : FS) (p q : String) (d : Bytes) (h : q ≠ p) :
    fsWrite fs p d q = fs q := by
  simp [fsWrite, h]

theorem bakName_length (p ts : String) :
    (bakName p ts).length = p.length + ts.length + 5 := by
  simp only [bakName, String.length_append]
  have h1 : ".".length = 1 := by decide
  have h2 : ".bak".length = 4 := by decide
  omega

/-- A managed database path is never one of the timestamped `.bak`
names, whatever the timestamp: the `.bak` name is strictly longer. -/
theorem managed_ne_bak (p q : String) (ts : String)
    (hp : p ∈ DATABASE_PATHS) (hq : q ∈ DATABASE_PATHS) : p ≠ bakName q ts := by
  intro h
  have hlen : p.length = (bakName q ts).length := by rw [h]
  rw [bakName_length] at hlen
  have hp22 : p.length = 22 ∨ p.length = 24 := by
    simp only [DATABASE_PATHS, List.mem_cons, List.mem_singleton] at hp
    rcases hp with h' | h' | h' <;> first | (left; rw [h']; decide) | (right; rw [h']; decide) | cases h'
  have hq22 : q.length = 22 ∨ q.length = 24 := by
    simp only [DATABASE_PATHS, List.mem_cons, List.mem_singleton] at hq
    rcases hq with h' | h' | h' <;> first | (left; rw [h']; decide) | (right; rw [h']; decide) | cases h'
  omega

theorem backupFiles_fs_preserve (ts : String) (fs : FS) (l : List String) (q : String)
    (hq : ∀ p ∈ l, q ≠ bakName p ts) : (backupFiles ts fs l).1 q = fs q := by
  induction l generalizing fs with
  | nil => rfl
  | cons p rest ih =>
    cases hfp : fs p with
    | none =>
      simp only [backupFiles, hfp]
      exact ih fs (fun a ha => hq a (by simp [ha]))
    | some d =>
      simp only [backupFiles, hfp]
      rw [ih _ (fun a ha => hq a (by simp [ha]))]
      exact fsWrite_apply_ne _ _ _ _ (hq p (by simp))

theorem backupFiles_snap_mem (ts : String) (fs : FS) (l : List String) (p : String)
    (hp : p ∈ l) (hex : fs p ≠ none)
    (hpre : ∀ a ∈ l, ∀ b ∈ l, a ≠ bakName b ts) :
    Event.snapshot p ∈ (backupFiles ts fs l).2 := by
  induction l generalizing fs with
  | nil => simp at hp
  | cons a rest ih =>
    rcases List.mem_cons.mp hp with h | h
    · subst h
      cases hfp : fs p with
      | none => exact absurd hfp hex
      | some d => simp [backupFiles, hfp]
    · cases hfa : fs a with
      | none =>
        simp only [backupFiles, hfa]
        exact ih fs h hex (fun x hx y hy => hpre x (by simp [hx]) y (by simp [hy]))
      | some d =>
        simp only [backupFiles, hfa, List.mem_cons]
        right
        refine ih _ h ?_ (fun x hx y hy => hpre x (by simp [hx]) y (by simp [hy]))
        rw [fsWrite_apply_ne _ _ _ _ (hpre p hp a (by simp))]
        exact hex

theorem backupFiles_all_snap (ts : String) (fs : FS) (l : List String) :
    ∀ e ∈ (backupFiles ts fs l).2, ∃ p, e = Event.snapshot p := by
  induction l generalizing fs with
  | nil => simp [backupFiles]
  | cons a rest ih =>
    cases hfa : fs a with
    | none => simpa only [backupFiles, hfa] using ih fs
    | some d =>
      simp only [backupFiles, hfa, List.mem_cons]
      rintro e (rfl | he)
      · exact ⟨a, rfl⟩
      · exact ih _ e he

theorem extractFiles_nomatch (ar : Archive) (fs : FS) (l : List String)
    (h : ∀ p ∈ l, List.lookup (baseName p) ar = none) :
    extractFiles ar fs l = (fs, [], []) := by
  induction l with
  | nil => rfl
  | cons p rest ih =>
    simp only [extractFiles, h p (by simp)]
    exact ih (fun a ha => h a (by simp [ha]))

/-- In a trace made of a block of snapshot events followed by anything
else, every write event is preceded by every snapshot present in the
first block. -/
theorem write_after_snaps {snaps ws : List Event}
    (hsnaps : ∀ e ∈ snaps, ∃ p, e = Event.snapshot p)
    {i : Nat} {q : String} (hi : (snaps ++ ws).get? i = some (Event.write q))
    {p : String} (hmem : Event.snapshot p ∈ snaps) :
    ∃ j, j < i ∧ (snaps ++ ws).get? j = some (Event.snapshot p) := by
  obtain ⟨j, hj⟩ := List.mem_iff_get?.mp hmem
  have hjlen : j < snaps.length := by
    by_contra hle
    push_neg at hle
    rw [List.get?_eq_none.mpr hle] at hj
    cases hj
  have hilen : snaps.length ≤ i := by
    by_contra hlt
    push_neg at hlt
    rw [List.get?_append hlt] at hi
    obtain ⟨p', hp'⟩ := hsnaps _ (List.get?_mem hi)
    exact Event.noConfusion hp'
  exact ⟨j, lt_of_lt_of_le hjlen hilen, by rw [List.get?_append hjlen]; exact hj⟩

theorem performRestore_trace (decode : Bytes → Option Archive) (ts : String)
    (st : ServerState) (zb : Bytes) (opId : String) :
    (performRestore decode ts st zb opId).2.2 =
      match decode zb with
      | none => []
      | some ar =>
        (backupFiles ts st.fs DATABASE_PATHS).2 ++
          (extractFiles ar (backupFiles ts st.fs DATABASE_PATHS).1 DATABASE_PATHS).2.2 := by
  unfold performRestore
  cases decode zb with
  | none => simp
  | some ar =>
    by_cases h : (extractFiles ar (backupFiles ts st.fs DATABASE_PATHS).1 DATABASE_PATHS).2.1 = []
    · simp [h]
    · simp [h]

theorem performRestore_fs (decode : Bytes → Option Archive) (ts : String)
    (st : ServerState) (zb : Bytes) (opId : String) :
    (performRestore decode ts st zb opId).1.fs =
      match decode zb with
      | none => st.fs
      | some ar => (extractFiles ar (backupFiles ts st.fs DATABASE_PATHS).1 DATABASE_PATHS).1 := by
  unfold performRestore
  cases decode zb with
  | none => simp
  | some ar =>
    by_cases h : (extractFiles ar (backupFiles ts st.fs DATABASE_PATHS).1 DATABASE_PATHS).2.1 = []
    · simp [h]
    · simp [h]

/-- Handling a chunk request whose increment does not reach the total:
the chunk is staged, the counter incremented, and more chunks are
awaited. -/
theorem restoreStep_chunk_more (decode : Bytes → Option Archive) (digest : Bytes → String)
    (ts : String) (st : ServerState) (u : String) (i n : Nat) (c? : Option String) (d : Bytes)
    (op : Operation)
    (hop : (resetOp st ⟨u, some i, n, c?, some d⟩).ops u = some op)
    (hlt : ¬ (op.chunksReceived + 1 ≥ op.totalChunks)) :
    restoreStep decode digest ts st ⟨u, some i, n, c?, some d⟩ =
      (let st1 := resetOp st ⟨u, some i, n, c?, some d⟩
       ({ st1 with
          staging := fun k =>
            if k = u then (fun j => if j = i then some d else st1.staging k j)
            else st1.staging k,
          ops := updOps st1.ops u (some { op with chunksReceived := op.chunksReceived + 1 }) },
       .chunkReceived (op.chunksReceived + 1) op.totalChunks)) := by
  unfold restoreStep
  simp only [hop, hlt, if_false]

/-- Handling a chunk request whose increment reaches the total: the
handler combines the staged chunks and either fails (missing chunk,
checksum mismatch) or proceeds to `perform_restore`. -/
theorem restoreStep_chunk_complete (decode : Bytes → Option Archive) (digest : Bytes → String)
    (ts : String) (st : ServerState) (u : String) (i n : Nat) (c? : Option String) (d : Bytes)
    (op : Operation)
    (hop : (resetOp st ⟨u, some i, n, c?, some d⟩).ops u = some op)
    (hge : op.chunksReceived + 1 ≥ op.totalChunks) :
    restoreStep decode digest ts st ⟨u, some i, n, c?, some d⟩ =
      (let st1 := resetOp st ⟨u, some i, n, c?, some d⟩
       let st2 : ServerState := { st1 with
          staging := fun k =>
            if k = u then (fun j => if j = i then some d else st1.staging k j)
            else st1.staging k,
          ops := updOps st1.ops u (some { op with chunksReceived := op.chunksReceived + 1 }) }
       let comb := combineList (fun j => if j = i then some d else st1.staging u j)
          (List.range op.totalChunks)
       let st3 : ServerState :=
         { st2 with combinedFiles := fun k => if k = u then some comb.1 else st2.combinedFiles k }
       if comb.2 then
         if checksumRejects digest c? comb.1 then
           ({ st3 with ops := mapOp st3.ops u (fun o => { o with status := .failed }) },
            RestoreResponse.checksumMismatch)
         else
           (let out := performRestore decode ts st3 comb.1 u
            (out.1, out.2.1))
       else
         ({ st3 with ops := mapOp st3.ops u (fun o => { o with status := .failed }) },
          RestoreResponse.serverError)) := by
  unfold restoreStep
  simp only [hop, hge, if_true]

/-- Handling a single-shot request with a file part: the record is
recreated, the upload stored, then the checksum gate decides between
rejection and `perform_restore`. -/
theorem restoreStep_single (decode : Bytes → Option Archive) (digest : Bytes → String)
    (ts : String) (st : ServerState) (u : String) (n : Nat) (c? : Option String) (d : Bytes) :
    restoreStep decode digest ts st ⟨u, none, n, c?, some d⟩ =
      (let st1 := resetOp st ⟨u, none, n, c?, some d⟩
       let st2 : ServerState :=
         { st1 with singleFiles := fun k => if k = u then some d else st1.singleFiles k }
       if checksumRejects digest c? d then
         ({ st2 with ops := mapOp st2.ops u (fun o => { o with status := .failed }) },
          RestoreResponse.checksumMismatch)
       else
         (let out := performRestore decode ts st2 d u
          (out.1, out.2.1))) := by
  unfold restoreStep resetOp
  simp [updOps]

/-- When the completing chunk finds every index `0 .. total-1` staged,
the combined file written is exactly the concatenation of the chunk
contents in index order, whatever the checksum field or restore
outcome. -/
theorem restoreStep_chunk_combined (decode : Bytes → Option Archive) (digest : Bytes → String)
    (ts : String) (st : ServerState) (u : String) (i n : Nat) (c? : Option String) (d : Bytes)
    (op : Operation) (dfun : Nat → Bytes)
    (hop : (resetOp st ⟨u, some i, n, c?, some d⟩).ops u = some op)
    (hge : op.chunksReceived + 1 ≥ op.totalChunks)
    (hall : ∀ j < op.totalChunks,
      (if j = i then some d else (resetOp st ⟨u, some i, n, c?, some d⟩).staging u j) =
        some (dfun j)) :
    (restoreStep decode digest ts st ⟨u, some i, n, c?, some d⟩).1.combinedFiles u =
      some (((List.range op.totalChunks).map dfun).flatten) := by
  rw [restoreStep_chunk_complete decode digest ts st u i n c? d op hop hge]
  have hcomb := combineList_all_some
    (fun j => if j = i then some d else (resetOp st ⟨u, some i, n, c?, some d⟩).staging u j)
    dfun (List.range op.totalChunks) (fun j hj => hall j (List.mem_range.mp hj))
  simp only [hcomb]
  by_cases hcs :
      checksumRejects digest c? (((List.range op.totalChunks).map dfun).flatten) = true
  · simp [hcs]
  · simp [hcs, performRestore_combinedFiles]

/-- When the completing chunk finds some index `0 .. total-1` never
staged, the combine loop hits a missing chunk file: the request fails
with a server error and the operation is marked failed. -/
theorem restoreStep_chunk_missing (decode : Bytes → Option Archive) (digest : Bytes → String)
    (ts : String) (st : ServerState) (u : String) (i n : Nat) (c? : Option String) (d : Bytes)
    (op : Operation) (j0 : Nat)
    (hop : (resetOp st ⟨u, some i, n, c?, some d⟩).ops u = some op)
    (hge : op.chunksReceived + 1 ≥ op.totalChunks)
    (hj0 : j0 < op.totalChunks)
    (hmiss : (if j0 = i then some d
        else (resetOp st ⟨u, some i, n, c?, some d⟩).staging u j0) = none) :
    (restoreStep decode digest ts st ⟨u, some i, n, c?, some d⟩).2 =
        RestoreResponse.serverError ∧
      ∃ o, (restoreStep decode digest ts st ⟨u, some i, n, c?, some d⟩).1.ops u = some o ∧
        o.status = .failed := by
  rw [restoreStep_chunk_complete decode digest ts st u i n c? d op hop hge]
  have hC2 := combineList_missing
    (fun j => if j = i then some d else (resetOp st ⟨u, some i, n, c?, some d⟩).staging u j)
    (List.range op.totalChunks) j0 (List.mem_range.mpr hj0) hmiss
  simp only [hC2, Bool.false_eq_true, if_false]
  refine ⟨by simp, ?_⟩
  rw [mapOp_apply_self, updOps_apply_self]
  exact ⟨_, rfl, rfl⟩

/-- Delivering the remaining chunk indices (all nonzero, each exactly
once, in any order) after the staged state already holds every other
index ends with the combined file equal to the index-ordered
concatenation of the chunk contents. -/
theorem runChunks_tail (decode : Bytes → Option Archive) (digest : Bytes → String)
    (ts : String) (u : String) (N : Nat) (data : Nat → Bytes) :
    ∀ (restL : List Nat) (st : ServerState) (op : Operation),
      st.ops u = some op → op.totalChunks = N →
      op.chunksReceived + restL.length = N →
      restL.Nodup → (∀ j ∈ restL, 0 < j ∧ j < N) →
      (∀ j, j < N → j ∉ restL → st.staging u j = some (data j)) →
      restL ≠ [] →
      (runRestore decode digest ts st (restL.map (chunkReq u N data))).combinedFiles u =
        some (((List.range N).map data).flatten) := by
  intro restL
  induction restL with
  | nil => intro st op _ _ _ _ _ _ hne; exact absurd rfl hne
  | cons i rest ih =>
    intro st op hop htot hcount hnd hbound hstag _
    have hi0 : i ≠ 0 := Nat.pos_iff_ne_zero.mp (hbound i (by simp)).1
    simp only [List.map_cons, chunkReq]
    have hreset : resetOp st ⟨u, some i, N, none, some (data i)⟩ = st := by
      simp [resetOp, hi0]
    have hop' : (resetOp st ⟨u, some i, N, none, some (data i)⟩).ops u = some op := by
      rw [hreset]; exact hop
    rw [show runRestore decode digest ts st
          (⟨u, some i, N, none, some (data i)⟩ :: rest.map (chunkReq u N data)) =
        runRestore decode digest ts
          (restoreStep decode digest ts st ⟨u, some i, N, none, some (data i)⟩).1
          (rest.map (chunkReq u N data)) from rfl]
    rcases eq_or_ne rest [] with hrest | hrest
    · subst hrest
      simp only [List.length_cons, List.length_nil] at hcount
      have hge : op.chunksReceived + 1 ≥ op.totalChunks := by omega
      simp only [List.map_nil]
      show (restoreStep decode digest ts st ⟨u, some i, N, none, some (data i)⟩).1.combinedFiles u
        = _
      have hall : ∀ j < op.totalChunks,
          (if j = i then some (data i)
            else (resetOp st ⟨u, some i, N, none, some (data i)⟩).staging u j) =
            some (data j) := by
        intro j hj
        by_cases hji : j = i
        · subst hji; simp
        · rw [if_neg hji, hreset]
          exact hstag j (htot ▸ hj) (by simp [hji])
      have hres := restoreStep_chunk_combined decode digest ts st u i N none (data i) op data
        hop' hge hall
      rw [htot] at hres
      exact hres
    · simp only [List.length_cons] at hcount
      have hrl : 0 < rest.length := List.length_pos.mpr hrest
      have hlt : ¬ (op.chunksReceived + 1 ≥ op.totalChunks) := by omega
      rw [restoreStep_chunk_more decode digest ts st u i N none (data i) op hop' hlt]
      refine ih _ { op with chunksReceived := op.chunksReceived + 1 } ?_ htot
        (by show op.chunksReceived + 1 + rest.length = N; omega)
        (List.Nodup.of_cons hnd) (fun j hj => hbound j (by simp [hj])) ?_ hrest
      · exact updOps_apply_self _ _ _
      · intro j hj hjr
        by_cases hji : j = i
        · subst hji; simp
        · simpa [hji, hreset] using hstag j hj (by simp [hji, hjr])

theorem resetOp_fs (st : ServerState) (req : RestoreRequest) :
    (resetOp st req).fs = st.fs := by
  unfold resetOp; split <;> rfl

theorem resetOp_staging (st : ServerState) (req : RestoreRequest) :
    (resetOp st req).staging = st.staging := by
  unfold resetOp; split <;> rfl

theorem resetOp_restoreCalls (st : ServerState) (req : RestoreRequest) :
    (resetOp st req).restoreCalls = st.restoreCalls := by
  unfold resetOp; split <;> rfl

theorem performRestore_restoreCalls (decode : Bytes → Option Archive) (ts : String)
    (st : ServerState) (zb : Bytes) (opId : String) :
    (performRestore decode ts st zb opId).1.restoreCalls = st.restoreCalls + 1 := by
  unfold performRestore
  cases decode zb with
  | none => rfl
  | some ar =>
    by_cases h : (extractFiles ar (backupFiles ts st.fs DATABASE_PATHS).1 DATABASE_PATHS).2.1 = []
    · simp [h]
    · simp [h]

theorem checksumRejects_true_iff (digest : Bytes → String) (c? : Option String) (d : Bytes) :
    checksumRejects digest c? d = true ↔ ∃ c, c? = some c ∧ c ≠ "" ∧ digest d ≠ c := by
  cases c? with
  | none => simp [checksumRejects]
  | some c =>
    simp only [checksumRejects, Bool.and_eq_true, bne_iff_ne, ne_eq, Option.some.injEq,
      Bool.not_eq_true']
    constructor
    · rintro ⟨h1, h2⟩
      exact ⟨c, rfl, by simpa using h1, by simpa using h2⟩
    · rintro ⟨c', hc', h1, h2⟩
      cases hc'
      exact ⟨by simpa using h1, by simpa using h2⟩

/-- A `/restore` request never touches a registry record keyed by a
different upload id. -/
theorem restoreStep_ops_other (decode : Bytes → Option Archive) (digest : Bytes → String)
    (ts : String) (st : ServerState) (req : RestoreRequest) (u : String)
    (h : u ≠ req.uploadId) :
    (restoreStep decode digest ts st req).1.ops u = st.ops u := by
  have hreset : (resetOp st req).ops u = st.ops u := by
    unfold resetOp; split
    · exact updOps_apply_ne _ _ _ _ h
    · rfl
  unfold restoreStep
  cases hops : (resetOp st req).ops req.uploadId with
  | none => simpa [hops] using hreset
  | some op =>
    cases hfb : req.fileBytes with
    | none => simp only [hops, hfb]; exact hreset
    | some d =>
      cases hch : req.chunk with
      | none =>
        simp only [hops, hfb, hch]
        by_cases hcr : checksumRejects digest req.checksum d = true
        · simp only [hcr, if_true]
          rw [mapOp_apply_ne _ _ _ _ h]
          exact hreset
        · simp only [hcr, if_false, Bool.false_eq_true]
          rw [performRestore_ops_ne _ _ _ _ _ _ h]
          exact hreset
      | some idx =>
        simp only [hops, hfb, hch]
        by_cases hge : op.chunksReceived + 1 ≥ op.totalChunks
        · simp only [hge, if_true]
          by_cases hc2 : (combineList
              (fun j => if j = idx then some d else (resetOp st req).staging req.uploadId j)
              (List.range op.totalChunks)).2 = true
          · by_cases hcr : checksumRejects digest req.checksum (combineList
                (fun j => if j = idx then some d else (resetOp st req).staging req.uploadId j)
                (List.range op.totalChunks)).1 = true
            · simp only [hc2, hcr, if_true]
              rw [mapOp_apply_ne _ _ _ _ h]
              simp only [updOps_apply_ne _ _ _ _ h]
              exact hreset
            · simp only [hc2, hcr, if_true, if_false, Bool.false_eq_true]
              rw [performRestore_ops_ne _ _ _ _ _ _ h]
              simp only [updOps_apply_ne _ _ _ _ h]
              exact hreset
          · simp only [hc2, if_false, Bool.false_eq_true]
            rw [mapOp_apply_ne _ _ _ _ h]
            simp only [updOps_apply_ne _ _ _ _ h]
            exact hreset
        · simp only [hge, if_false]
          simp only [updOps_apply_ne _ _ _ _ h]
          exact hreset

/-- A single-shot request always (re)creates the registry record with
fresh counters. -/
theorem resetOp_single_ops (st : ServerState) (u : String) (n : Nat) (c? : Option String)
    (fb : Option Bytes) :
    (resetOp st ⟨u, none, n, c?, fb⟩).ops u = some ⟨.uploading, 0, n, none, false⟩ := by
  simp [resetOp, updOps]

theorem genLoopF_congr (file : Bytes) (cs : Int) :
    ∀ (f g pos : Nat) (r : Int), r.toNat ≤ f → r.toNat ≤ g →
      genLoopF file cs f pos r = genLoopF file cs g pos r := by
  intro f
  induction f with
  | zero =>
    intro g pos r hf hg
    have hr : r ≤ 0 := by omega
    cases g with
    | zero => rfl
    | succ g' => simp [genLoopF, hr]
  | succ f' ih =>
    intro g pos r hf hg
    cases g with
    | zero =>
      have hr : r ≤ 0 := by omega
      simp [genLoopF, hr]
    | succ g' =>
      simp only [genLoopF]
      by_cases hr : r ≤ 0
      · simp [hr]
      · simp only [hr, if_false]
        by_cases hd : readAt file pos (min cs r) = []
        · simp [hd]
        · simp only [hd, if_false]
          have hlen : 0 < (readAt file pos (min cs r)).length := List.length_pos.mpr hd
          congr 1
          exact ih g' _ _ (by omega) (by omega)

/-- The streaming loop satisfies its intended one-step unfolding. -/
theorem genLoop_eq (file : Bytes) (cs : Int) (pos : Nat) (r : Int) :
    genLoop file cs pos r =
      if r ≤ 0 then []
      else
        if readAt file pos (min cs r) = [] then []
        else readAt file pos (min cs r) ++
          genLoop file cs (pos + (readAt file pos (min cs r)).length)
            (r - (readAt file pos (min cs r)).length) := by
  unfold genLoop
  by_cases hr : r ≤ 0
  · have h0 : r.toNat = 0 := by omega
    rw [h0]
    simp [genLoopF, hr]
  · have h1 : r.toNat = (r.toNat - 1) + 1 := by omega
    rw [h1]
    simp only [genLoopF, hr, if_false]
    by_cases hd : readAt file pos (min cs r) = []
    · simp [hd]
    · simp only [hd, if_false]
      have hlen : 0 < (readAt file pos (min cs r)).length := List.length_pos.mpr hd
      congr 1
      exact genLoopF_congr file cs _ _ _ _ (by omega) (by omega)

/-- With a positive chunk size and a window inside the file, the
stream yields exactly the requested slice. -/
theorem genLoop_slice (file : Bytes) (cs : Int) (hcs : 1 ≤ cs) :
    ∀ (n pos : Nat), pos + n ≤ file.length →
      genLoop file cs pos (n : Int) = (file.drop pos).take n := by
  intro n
  induction n using Nat.strong_induction_on with
  | _ n ih =>
    intro pos hlen
    rw [genLoop_eq]
    rcases Nat.eq_zero_or_pos n with h0 | hpos
    · subst h0; simp
    · have hr : ¬ ((n : Int) ≤ 0) := by omega
      have h1 : (1 : Int) ≤ min cs (n : Int) := le_min hcs (by exact_mod_cast hpos)
      have h2 : min cs (n : Int) ≤ (n : Int) := min_le_right _ _
      have hread : readAt file pos (min cs (n : Int)) =
          (file.drop pos).take (min cs (n : Int)).toNat := by
        unfold readAt; rw [if_neg (by omega)]
      have hdl : ((file.drop pos).take (min cs (n : Int)).toNat).length =
          (min cs (n : Int)).toNat := by
        rw [List.length_take, List.length_drop]; omega
      have hne : (file.drop pos).take (min cs (n : Int)).toNat ≠ [] := by
        apply List.length_pos.mp
        omega
      simp only [hr, if_false, hread, hne, hdl]
      have hcast : ((n : Int) - ((min cs (n : Int)).toNat : Nat)) =
          ((n - (min cs (n : Int)).toNat : Nat) : Int) := by omega
      rw [hcast, ih (n - (min cs (n : Int)).toNat) (by omega)
        (pos + (min cs (n : Int)).toNat) (by omega)]
      rw [show file.drop (pos + (min cs (n : Int)).toNat) =
          (file.drop pos).drop (min cs (n : Int)).toNat from
        (List.drop_drop _ pos file).symm]
      rw [← List.take_add]
      rw [show (min cs (n : Int)).toNat + (n - (min cs (n : Int)).toNat) = n from by omega]

/-- With chunk size zero, the first read returns no bytes and the loop
breaks immediately. -/
theorem genLoop_zero (file : Bytes) (pos : Nat) (r : Int) :
    genLoop file 0 pos r = [] := by
  rw [genLoop_eq]
  by_cases hr : r ≤ 0
  · simp [hr]
  · have hmin : min (0 : Int) r = 0 := min_eq_left (by omega)
    simp [hr, hmin, readAt]

/-- With a negative chunk size, the first `f.read` returns everything
from the seek position to end of file, after which the remaining count
is exhausted. -/
theorem genLoop_neg (file : Bytes) (cs : Int) (hcs : cs < 0) (pos : Nat) (r : Int)
    (hr : 0 < r) (hpos : pos < file.length) (hle : r ≤ (file.length : Int) - pos) :
    genLoop file cs pos r = file.drop pos := by
  rw [genLoop_eq]
  rw [if_neg (by omega)]
  have hmin : min cs r = cs := min_eq_left (by omega)
  have hread : readAt file pos (min cs r) = file.drop pos := by
    unfold readAt; rw [hmin, if_pos hcs]
  have hne : file.drop pos ≠ [] := by
    apply List.length_pos.mp
    rw [List.length_drop]
    omega
  simp only [hread, hne, if_false]
  rw [List.length_drop]
  rw [genLoop_eq, if_pos (by omega)]
  exact List.append_nil _

/-- Body of an in-bounds range request with a positive chunk size: the
exact requested slice. -/
theorem backupDownload_range_body (file : Bytes) (cs : Int) (hcs : 1 ≤ cs) (a b : Nat)
    (hab : a ≤ b) (hb : b < file.length) :
    (backupDownload file (.given (some a) (some b)) cs).body =
      (file.drop a).take (b - a + 1) := by
  unfold backupDownload
  dsimp only [Option.getD_some]
  rw [if_neg (by simp; omega)]
  rw [if_neg (by omega)]
  show genLoop file cs a ((b : Int) - (a : Int) + 1) = _
  rw [show ((b : Int) - (a : Int) + 1) = ((b - a + 1 : Nat) : Int) from by omega]
  exact genLoop_slice file cs hcs (b - a + 1) a (by omega)

/-- Body of a full (no Range header) download with a positive chunk
size: the whole archive. -/
theorem backupDownload_full_body (file : Bytes) (cs : Int) (hcs : 1 ≤ cs) :
    (backupDownload file .absent cs).body = file := by
  unfold backupDownload
  dsimp only
  rcases Nat.eq_zero_or_pos file.length with h0 | hp
  · rw [if_pos (by omega)]
    exact (List.length_eq_zero.mp h0).symm
  · rw [if_neg (by omega)]
    show genLoop file cs 0 (((file.length : Int) - 1) - 0 + 1) = _
    rw [show (((file.length : Int) - 1) - 0 + 1) = ((file.length : Nat) : Int) from by omega]
    rw [genLoop_slice file cs hcs file.length 0 (by omega)]
    simp

/-- Concatenating the bodies of consecutive in-bounds ranges tiling
`[s, L)` yields the file's suffix from `s`. -/
theorem covers_join (file : Bytes) (cs : Int) (hcs : 1 ≤ cs) :
    ∀ (rs : List (Nat × Nat)) (s : Nat), covers file.length s rs = true →
      ((rs.map (fun r =>
        (backupDownload file (.given (some r.1) (some r.2)) cs).body)).flatten) =
        file.drop s := by
  intro rs
  induction rs with
  | nil =>
    intro s h
    simp only [covers, decide_eq_true_eq] at h
    simp [h, List.drop_length]
  | cons r rest ih =>
    intro s h
    obtain ⟨a, b⟩ := r
    simp only [covers, Bool.and_eq_true, decide_eq_true_eq] at h
    obtain ⟨⟨⟨ha, hsb⟩, hbL⟩, hrest⟩ := h
    subst ha
    simp only [List.map_cons, List.flatten_cons]
    rw [backupDownload_range_body file cs hcs a b hsb hbL, ih (b + 1) hrest]
    rw [show file.drop (b + 1) = (file.drop a).drop (b - a + 1) from by
      rw [List.drop_drop]; congr 1; omega]
    exact List.take_append_drop _ _

/-! ### Claims -/

/-- Claim C1: during a restore, for every ManagedFile that currently
exists, a copy under a timestamped `.bak` name is written before any
destructive write to any ManagedFile destination: in the event trace
of `perform_restore`, every `write` event is preceded by a `snapshot`
event for each database file existing at entry. -/
theorem c1_snapshot_precedes_writes (decode : Bytes → Option Archive) (ts : String)
    (st : ServerState) (zb : Bytes) (opId : String) (i : Nat) (q : String)
    (hw : ((performRestore decode ts st zb opId).2.2).get? i = some (Event.write q))
    (p : String) (hp : p ∈ DATABASE_PATHS) (hex : st.fs p ≠ none) :
    ∃ j, j < i ∧
      ((performRestore decode ts st zb opId).2.2).get? j = some (Event.snapshot p) := by
  rw [performRestore_trace] at hw ⊢
  cases hdec : decode zb with
  | none => simp only [hdec, List.get?_eq_getElem?] at hw; simp at hw
  | some ar =>
    simp only [hdec] at hw ⊢
    exact write_after_snaps (backupFiles_all_snap ts st.fs DATABASE_PATHS) hw
      (backupFiles_snap_mem ts st.fs DATABASE_PATHS p hp hex
        (fun a ha b hb => managed_ne_bak a b ts ha hb))

/-- Witness for C1 at a concrete input: both databases exist, the
archive holds `books_data.db`; the write event at trace position 2 is
preceded by a snapshot of `books_data.db`. -/
theorem c1_witness :
    ((performRestore decodeBooks "T" stBoth [7] "u").2.2).get? 2 =
        some (Event.write "database/books_data.db") ∧
      "database/books_data.db" ∈ DATABASE_PATHS ∧
      stBoth.fs "database/books_data.db" ≠ none ∧
      ∃ j, j < 2 ∧ ((performRestore decodeBooks "T" stBoth [7] "u").2.2).get? j =
        some (Event.snapshot "database/books_data.db") :=
  ⟨by decide, by decide, by decide,
   c1_snapshot_precedes_writes decodeBooks "T" stBoth [7] "u" 2 "database/books_data.db"
     (by decide) "database/books_data.db" (by decide) (by decide)⟩

/-- Claim C3, counterexample.  The claim says a record that reached
`completed` is never mutated again by a request handler.  On the code,
a later `/restore` request reusing the same `upload_id` recreates the
record: after a successful single-shot restore (status `completed`), a
second request with the same id and a missing file part leaves the
record with status `uploading` and reset counters. -/
theorem c3_counterexample :
    (((restoreStep decodeBooks digestConst "T" stEmpty
          ⟨"u", none, 1, none, some [7]⟩).1.ops "u").map Operation.status =
        some OpStatus.completed) ∧
      (((restoreStep decodeBooks digestConst "T"
          (restoreStep decodeBooks digestConst "T" stEmpty
            ⟨"u", none, 1, none, some [7]⟩).1
          ⟨"u", none, 1, none, none⟩).1.ops "u").map Operation.status =
        some OpStatus.uploading) :=
  ⟨by decide, by decide⟩

/-- Claim C3 (amended): a `TransferOperation` record is mutated only
by `/restore` requests that reuse its own upload id — a request with
any other upload id leaves the record untouched — and the Deferred
Reclaimer deletes the whole record.  (The original claim's
"no subsequent request-handler operation mutates the record once
completed/failed" fails precisely for requests reusing the same id,
as the counterexample shows.) -/
theorem c3_registry_isolation_amended (decode : Bytes → Option Archive)
    (digest : Bytes → String) (ts : String) (st : ServerState) (req : RestoreRequest)
    (u : String) (h : u ≠ req.uploadId) :
    (restoreStep decode digest ts st req).1.ops u = st.ops u ∧
      (cleanupOperation st u).ops u = none := by
  refine ⟨restoreStep_ops_other decode digest ts st req u h, ?_⟩
  unfold cleanupOperation
  cases hops : st.ops u with
  | none => exact hops
  | some op => simp [updOps]

/-- Witness for C3 (amended) at a concrete input. -/
theorem c3_witness :
    ("v" : String) ≠ "u" ∧
      (restoreStep decodeBooks digestConst "T" stBoth
          ⟨"u", none, 1, none, some [7]⟩).1.ops "v" = stBoth.ops "v" ∧
      (cleanupOperation stBoth "v").ops "v" = none :=
  ⟨by decide,
   (c3_registry_isolation_amended decodeBooks digestConst "T" stBoth
     ⟨"u", none, 1, none, some [7]⟩ "v" (by decide)).1,
   (c3_registry_isolation_amended decodeBooks digestConst "T" stBoth
     ⟨"u", none, 1, none, some [7]⟩ "v" (by decide)).2⟩

/-- Claim C5: restoring a structurally valid archive containing no
entry whose name matches the base name of any database path fails with
the nothing-restored error, marks the operation failed, and leaves
every database file's bytes unchanged. -/
theorem c5_nothing_to_restore (decode : Bytes → Option Archive) (ts : String)
    (st : ServerState) (zb : Bytes) (opId : String) (ar : Archive) (op : Operation)
    (hdec : decode zb = some ar)
    (hno : ∀ p ∈ DATABASE_PATHS, List.lookup (baseName p) ar = none)
    (hop : st.ops opId = some op) :
    (performRestore decode ts st zb opId).2.1 = RestoreResponse.nothingRestored ∧
      (performRestore decode ts st zb opId).1.ops opId = some { op with status := .failed } ∧
      ∀ p ∈ DATABASE_PATHS, (performRestore decode ts st zb opId).1.fs p = st.fs p := by
  have hext := extractFiles_nomatch ar (backupFiles ts st.fs DATABASE_PATHS).1
    DATABASE_PATHS hno
  unfold performRestore
  simp only [hdec, hext]
  refine ⟨by simp, ?_, ?_⟩
  · simp [mapOp, hop]
  · intro p hp
    show (backupFiles ts st.fs DATABASE_PATHS).1 p = st.fs p
    exact backupFiles_fs_preserve ts st.fs DATABASE_PATHS p
      (fun a ha => managed_ne_bak p a ts hp ha)

/-- Witness for C5 at a concrete input: the archive holds only
`other.txt`, both databases exist, the operation is registered. -/
theorem c5_witness :
    decodeOther [9] = some [("other.txt", [9])] ∧
      (∀ p ∈ DATABASE_PATHS, List.lookup (baseName p) [("other.txt", [9])] = none) ∧
      stBoth.ops "u" = some ⟨.uploading, 0, 1, none, false⟩ ∧
      (performRestore decodeOther "T" stBoth [9] "u").2.1 =
        RestoreResponse.nothingRestored ∧
      (performRestore decodeOther "T" stBoth [9] "u").1.ops "u" =
        some { (⟨.uploading, 0, 1, none, false⟩ : Operation) with status := .failed } ∧
      ∀ p ∈ DATABASE_PATHS, (performRestore decodeOther "T" stBoth [9] "u").1.fs p =
        stBoth.fs p := by
  have h := c5_nothing_to_restore decodeOther "T" stBoth [9] "u" [("other.txt", [9])]
    ⟨.uploading, 0, 1, none, false⟩ (by decide) (by decide) (by decide)
  exact ⟨by decide, by decide, by decide, h.1, h.2.1, h.2.2⟩


/-- Claim C2, counterexample.  The claim says delivering chunk indices
`0..N-1` in any order, with duplicate deliveries being idempotent,
assembles the same combined file as in-order delivery.  The code
refutes both parts: (a) for `N = 2`, delivering index 1 before index 0
yields no combined file at all (the first request is rejected with
"Upload session not found", and after chunk 0 the count stays below
the total), while in-order delivery assembles `[1, 2]`; (b) for
`N = 3`, delivering indices `0, 1, 1` makes `chunks_received` reach 3,
so completion is detected early and the combine loop fails on the
never-delivered chunk 2 with a server error. -/
theorem c2_counterexample :
    (runRestore decodeBooks digestConst "T" stEmpty
        [⟨"u", some 1, 2, none, some [2]⟩, ⟨"u", some 0, 2, none, some [1]⟩]).combinedFiles "u"
      = none ∧
    (runRestore decodeBooks digestConst "T" stEmpty
        [⟨"u", some 0, 2, none, some [1]⟩, ⟨"u", some 1, 2, none, some [2]⟩]).combinedFiles "u"
      = some [1, 2] ∧
    (restoreStep decodeBooks digestConst "T"
        (runRestore decodeBooks digestConst "T" stEmpty
          [⟨"u", some 0, 3, none, some [1]⟩, ⟨"u", some 1, 3, none, some [2]⟩])
        ⟨"u", some 1, 3, none, some [2]⟩).2 = RestoreResponse.serverError := by
  refine ⟨?_, ?_, ?_⟩ <;> decide

/-- Claim C2 (amended): delivering chunk 0 first and then the
remaining indices `1..N-1` in any order, each index exactly once,
yields a combined file byte-identical to in-order delivery — the
concatenation of the chunk contents in index order.  (As the
counterexample shows, the original claim's "any order" and "duplicates
are idempotent" parts fail: a nonzero index before chunk 0 is rejected
with session-not-found, and every delivery increments
`chunks_received`, so duplicates cause early completion detection and
a failed combine.) -/
theorem c2_chunk_order_amended (decode : Bytes → Option Archive) (digest : Bytes → String)
    (ts : String) (st : ServerState) (u : String) (N : Nat) (data : Nat → Bytes)
    (l : List Nat) (hperm : l.Perm (List.range N)) (hhead : l.head? = some 0) :
    (runRestore decode digest ts st (l.map (chunkReq u N data))).combinedFiles u =
      some (((List.range N).map data).flatten) := by
  cases l with
  | nil => cases hhead
  | cons a restL =>
    have ha : a = 0 := by simpa using hhead
    subst ha
    have hnd : (0 :: restL).Nodup := hperm.nodup_iff.mpr (List.nodup_range N)
    have h0nr : 0 ∉ restL := (List.nodup_cons.mp hnd).1
    have hlen : restL.length + 1 = N := by simpa using hperm.length_eq
    simp only [List.map_cons, chunkReq]
    have hreset1 : (resetOp st ⟨u, some 0, N, none, some (data 0)⟩).ops u
        = some ⟨.uploading, 0, N, none, false⟩ := by
      simp [resetOp, updOps]
    rcases eq_or_ne restL [] with hre | hre
    · subst hre
      have hN1 : N = 1 := by simp at hlen; omega
      subst hN1
      simp only [List.map_nil]
      show (restoreStep decode digest ts st
        ⟨u, some 0, 1, none, some (data 0)⟩).1.combinedFiles u = _
      refine restoreStep_chunk_combined decode digest ts st u 0 1 none (data 0)
        ⟨.uploading, 0, 1, none, false⟩ data hreset1 (by simp) ?_
      intro j hj
      interval_cases j
      simp
    · have hrl : 0 < restL.length := List.length_pos.mpr hre
      have hlt : ¬ ((⟨OpStatus.uploading, 0, N, none, false⟩ : Operation).chunksReceived + 1 ≥
          (⟨OpStatus.uploading, 0, N, none, false⟩ : Operation).totalChunks) := by
        show ¬ (0 + 1 ≥ N); omega
      rw [show runRestore decode digest ts st
            (⟨u, some 0, N, none, some (data 0)⟩ :: restL.map (chunkReq u N data)) =
          runRestore decode digest ts
            (restoreStep decode digest ts st ⟨u, some 0, N, none, some (data 0)⟩).1
            (restL.map (chunkReq u N data)) from rfl]
      rw [restoreStep_chunk_more decode digest ts st u 0 N none (data 0) _ hreset1 hlt]
      refine runChunks_tail decode digest ts u N data restL _
        { (⟨.uploading, 0, N, none, false⟩ : Operation) with chunksReceived := 0 + 1 }
        (updOps_apply_self _ _ _) rfl (by show 0 + 1 + restL.length = N; omega)
        (List.nodup_cons.mp hnd).2 ?_ ?_ hre
      · intro j hj
        refine ⟨Nat.pos_of_ne_zero (fun h => h0nr (h ▸ hj)), ?_⟩
        exact List.mem_range.mp (hperm.mem_iff.mp (by simp [hj]))
      · intro j hj hjr
        have hj0 : j = 0 := by
          have : j ∈ 0 :: restL := hperm.mem_iff.mpr (List.mem_range.mpr hj)
          rcases List.mem_cons.mp this with h | h
          · exact h
          · exact absurd h hjr
        subst hj0
        simp

/-- Witness for C2 (amended) at a concrete input: three chunks
delivered in order 0, 2, 1 assemble to the index-ordered
concatenation. -/
theorem c2_witness :
    ([0, 2, 1] : List Nat).Perm (List.range 3) ∧
      ([0, 2, 1] : List Nat).head? = some 0 ∧
      (runRestore decodeBooks digestConst "T" stEmpty
          ([0, 2, 1].map (chunkReq "u" 3 (fun i => [i])))).combinedFiles "u" =
        some (((List.range 3).map (fun i => [i])).flatten) :=
  ⟨by decide, rfl,
   c2_chunk_order_amended decodeBooks digestConst "T" stEmpty "u" 3 (fun i => [i])
     [0, 2, 1] (by decide) rfl⟩

/-- Claim C6: an upload (single-shot, or the chunk that completes a
chunked upload) supplying a non-empty checksum that differs from the
digest of the received file is rejected before the restore begins: the
response is a checksum mismatch, the operation is marked failed,
`perform_restore` is never invoked (the invocation counter is
unchanged), and no database file is overwritten. -/
theorem c6_checksum_mismatch_blocks (decode : Bytes → Option Archive)
    (digest : Bytes → String) (ts : String) (st : ServerState) :
    (∀ (u : String) (n : Nat) (c : String) (d : Bytes), c ≠ "" → digest d ≠ c →
      (restoreStep decode digest ts st ⟨u, none, n, some c, some d⟩).2 =
          RestoreResponse.checksumMismatch ∧
        (restoreStep decode digest ts st ⟨u, none, n, some c, some d⟩).1.fs = st.fs ∧
        (restoreStep decode digest ts st ⟨u, none, n, some c, some d⟩).1.restoreCalls =
          st.restoreCalls ∧
        ∃ o, (restoreStep decode digest ts st ⟨u, none, n, some c, some d⟩).1.ops u =
          some o ∧ o.status = .failed) ∧
    (∀ (u : String) (i n : Nat) (c : String) (d : Bytes) (op : Operation), c ≠ "" →
      (resetOp st ⟨u, some i, n, some c, some d⟩).ops u = some op →
      op.chunksReceived + 1 ≥ op.totalChunks →
      (combineList (fun j => if j = i then some d
          else (resetOp st ⟨u, some i, n, some c, some d⟩).staging u j)
        (List.range op.totalChunks)).2 = true →
      digest (combineList (fun j => if j = i then some d
          else (resetOp st ⟨u, some i, n, some c, some d⟩).staging u j)
        (List.range op.totalChunks)).1 ≠ c →
      (restoreStep decode digest ts st ⟨u, some i, n, some c, some d⟩).2 =
          RestoreResponse.checksumMismatch ∧
        (restoreStep decode digest ts st ⟨u, some i, n, some c, some d⟩).1.fs = st.fs ∧
        (restoreStep decode digest ts st ⟨u, some i, n, some c, some d⟩).1.restoreCalls =
          st.restoreCalls ∧
        ∃ o, (restoreStep decode digest ts st ⟨u, some i, n, some c, some d⟩).1.ops u =
          some o ∧ o.status = .failed) := by
  constructor
  · intro u n c d hc hd
    have hcr : checksumRejects digest (some c) d = true := by
      simp [checksumRejects, hc, hd]
    rw [restoreStep_single decode digest ts st u n (some c) d]
    simp only [hcr, if_true]
    refine ⟨by trivial, ?_, ?_, ?_⟩
    · show (resetOp st ⟨u, none, n, some c, some d⟩).fs = st.fs
      exact resetOp_fs _ _
    · show (resetOp st ⟨u, none, n, some c, some d⟩).restoreCalls = st.restoreCalls
      exact resetOp_restoreCalls _ _
    · rw [mapOp_apply_self]
      show ∃ o, ((resetOp st ⟨u, none, n, some c, some d⟩).ops u).map _ = some o ∧ _
      rw [resetOp_single_ops]
      exact ⟨_, rfl, rfl⟩
  · intro u i n c d op hc hop hge hc2 hdig
    have hcr : checksumRejects digest (some c)
        (combineList (fun j => if j = i then some d
          else (resetOp st ⟨u, some i, n, some c, some d⟩).staging u j)
        (List.range op.totalChunks)).1 = true := by
      simp [checksumRejects, hc, hdig]
    rw [restoreStep_chunk_complete decode digest ts st u i n (some c) d op hop hge]
    simp only [hc2, hcr, if_true]
    refine ⟨by trivial, ?_, ?_, ?_⟩
    · show (resetOp st ⟨u, some i, n, some c, some d⟩).fs = st.fs
      exact resetOp_fs _ _
    · show (resetOp st ⟨u, some i, n, some c, some d⟩).restoreCalls = st.restoreCalls
      exact resetOp_restoreCalls _ _
    · rw [mapOp_apply_self, updOps_apply_self]
      exact ⟨_, rfl, rfl⟩

/-- Witness for C6 at a concrete input: a single-shot upload with
checksum `"A"` while the digest is `"X"`. -/
theorem c6_witness :
    ("A" : String) ≠ "" ∧ digestConst [7] ≠ "A" ∧
      ((restoreStep decodeBooks digestConst "T" stEmpty
            ⟨"u", none, 1, some "A", some [7]⟩).2 = RestoreResponse.checksumMismatch ∧
        (restoreStep decodeBooks digestConst "T" stEmpty
            ⟨"u", none, 1, some "A", some [7]⟩).1.fs = stEmpty.fs ∧
        (restoreStep decodeBooks digestConst "T" stEmpty
            ⟨"u", none, 1, some "A", some [7]⟩).1.restoreCalls = stEmpty.restoreCalls ∧
        ∃ o, (restoreStep decodeBooks digestConst "T" stEmpty
            ⟨"u", none, 1, some "A", some [7]⟩).1.ops "u" = some o ∧
          o.status = .failed) :=
  ⟨by decide, by decide,
   (c6_checksum_mismatch_blocks decodeBooks digestConst "T" stEmpty).1 "u" 1 "A" [7]
     (by decide) (by decide)⟩

/-- Claim C7: when a chunk delivery makes the received count reach the
total, assembly concatenates the chunk files in index order
`0..total-1` into the combined file; if some index in that range was
never staged (for instance because a duplicate delivery inflated the
count), the combine loop fails — the request errors and the operation
is marked failed. -/
theorem c7_assembly_order_and_missing (decode : Bytes → Option Archive)
    (digest : Bytes → String) (ts : String) (st : ServerState) (u : String) (i n : Nat)
    (c? : Option String) (d : Bytes) (op : Operation)
    (hop : (resetOp st ⟨u, some i, n, c?, some d⟩).ops u = some op)
    (hge : op.chunksReceived + 1 ≥ op.totalChunks) :
    (∀ dfun : Nat → Bytes,
      (∀ j < op.totalChunks, (if j = i then some d
          else (resetOp st ⟨u, some i, n, c?, some d⟩).staging u j) = some (dfun j)) →
      (restoreStep decode digest ts st ⟨u, some i, n, c?, some d⟩).1.combinedFiles u =
        some (((List.range op.totalChunks).map dfun).flatten)) ∧
    (∀ j0 < op.totalChunks,
      (if j0 = i then some d
          else (resetOp st ⟨u, some i, n, c?, some d⟩).staging u j0) = none →
      (restoreStep decode digest ts st ⟨u, some i, n, c?, some d⟩).2 =
          RestoreResponse.serverError ∧
        ∃ o, (restoreStep decode digest ts st ⟨u, some i, n, c?, some d⟩).1.ops u =
          some o ∧ o.status = .failed) :=
  ⟨fun dfun hall =>
      restoreStep_chunk_combined decode digest ts st u i n c? d op dfun hop hge hall,
   fun j0 hj0 hmiss =>
      restoreStep_chunk_missing decode digest ts st u i n c? d op j0 hop hge hj0 hmiss⟩

/-- Witness for C7 at a concrete input: operation `"u"` has chunk 0
staged as `[5]`, and the delivery of chunk 1 with `[6]` completes and
assembles `[5, 6]`. -/
theorem c7_witness :
    (resetOp stChunk ⟨"u", some 1, 2, none, some [6]⟩).ops "u" =
        some ⟨.uploading, 1, 2, none, false⟩ ∧
      (⟨.uploading, 1, 2, none, false⟩ : Operation).chunksReceived + 1 ≥
        (⟨.uploading, 1, 2, none, false⟩ : Operation).totalChunks ∧
      (restoreStep decodeBooks digestConst "T" stChunk
          ⟨"u", some 1, 2, none, some [6]⟩).1.combinedFiles "u" =
        some (((List.range (⟨.uploading, 1, 2, none, false⟩ : Operation).totalChunks).map
          (fun j => if j = 0 then [5] else [6])).flatten) :=
  ⟨by decide, by decide,
   (c7_assembly_order_and_missing decodeBooks digestConst "T" stChunk "u" 1 2 none [6]
       ⟨.uploading, 1, 2, none, false⟩ (by decide) (by decide)).1
     (fun j => if j = 0 then [5] else [6]) (by decide)⟩

/-- Claim C9, counterexample.  The claim's iff says a checksum-mismatch
error is raised whenever the `checksum` field is present and differs
from the computed digest.  On the code, a present-but-empty checksum
field (`""`) is falsy in Python, so verification is skipped entirely:
the restore proceeds and succeeds even though `"" ≠ digest`. -/
theorem c9_counterexample :
    digestConst [7] ≠ "" ∧
      (restoreStep decodeBooks digestConst "T" stEmpty
          ⟨"u", none, 1, some "", some [7]⟩).2 =
        RestoreResponse.restoreOk ["database/books_data.db"] :=
  ⟨by decide, by decide⟩

/-- Claim C9 (amended): when the `checksum` form field is absent — or
present but empty, which Python's truthiness test treats the same
way — no integrity verification is performed and the restore proceeds
directly on the uploaded file (`perform_restore` is invoked); a
checksum-mismatch error is raised if and only if the field is present,
non-empty, and differs from the computed digest.  Stated for the
single-shot path and for the completing chunk of a chunked upload. -/
theorem c9_checksum_skip_amended (decode : Bytes → Option Archive)
    (digest : Bytes → String) (ts : String) (st : ServerState) :
    (∀ (u : String) (n : Nat) (c? : Option String) (d : Bytes),
      ((restoreStep decode digest ts st ⟨u, none, n, c?, some d⟩).2 =
          RestoreResponse.checksumMismatch ↔
        ∃ c, c? = some c ∧ c ≠ "" ∧ digest d ≠ c) ∧
      (c? = none →
        (restoreStep decode digest ts st ⟨u, none, n, c?, some d⟩).1.restoreCalls =
          st.restoreCalls + 1)) ∧
    (∀ (u : String) (i n : Nat) (c? : Option String) (d : Bytes) (op : Operation),
      (resetOp st ⟨u, some i, n, c?, some d⟩).ops u = some op →
      op.chunksReceived + 1 ≥ op.totalChunks →
      (combineList (fun j => if j = i then some d
          else (resetOp st ⟨u, some i, n, c?, some d⟩).staging u j)
        (List.range op.totalChunks)).2 = true →
      (((restoreStep decode digest ts st ⟨u, some i, n, c?, some d⟩).2 =
          RestoreResponse.checksumMismatch ↔
        ∃ c, c? = some c ∧ c ≠ "" ∧
          digest (combineList (fun j => if j = i then some d
              else (resetOp st ⟨u, some i, n, c?, some d⟩).staging u j)
            (List.range op.totalChunks)).1 ≠ c) ∧
        (c? = none →
          (restoreStep decode digest ts st ⟨u, some i, n, c?, some d⟩).1.restoreCalls =
            st.restoreCalls + 1))) := by
  constructor
  · intro u n c? d
    rw [restoreStep_single decode digest ts st u n c? d]
    constructor
    · by_cases hcr : checksumRejects digest c? d = true
      · simp only [hcr, if_true]
        constructor
        · intro _
          exact (checksumRejects_true_iff digest c? d).mp hcr
        · intro _
          trivial
      · simp only [hcr, if_false, Bool.false_eq_true]
        constructor
        · intro hresp
          exact absurd hresp (performRestore_resp_ne_mismatch _ _ _ _ _)
        · rintro ⟨c, hc0, hc1, hc2⟩
          exact absurd ((checksumRejects_true_iff digest c? d).mpr ⟨c, hc0, hc1, hc2⟩) hcr
    · intro hnone
      subst hnone
      have hcr : checksumRejects digest none d = false := rfl
      simp only [hcr, Bool.false_eq_true, if_false]
      rw [performRestore_restoreCalls]
      show (resetOp st ⟨u, none, n, none, some d⟩).restoreCalls + 1 = st.restoreCalls + 1
      rw [resetOp_restoreCalls]
  · intro u i n c? d op hop hge hc2
    rw [restoreStep_chunk_complete decode digest ts st u i n c? d op hop hge]
    simp only [hc2, if_true]
    constructor
    · by_cases hcr : checksumRejects digest c?
          (combineList (fun j => if j = i then some d
            else (resetOp st ⟨u, some i, n, c?, some d⟩).staging u j)
          (List.range op.totalChunks)).1 = true
      · simp only [hcr, if_true]
        constructor
        · intro _
          exact (checksumRejects_true_iff digest c? _).mp hcr
        · intro _
          trivial
      · simp only [hcr, if_false, Bool.false_eq_true]
        constructor
        · intro hresp
          exact absurd hresp (performRestore_resp_ne_mismatch _ _ _ _ _)
        · rintro ⟨c, hc0, hc1, hcd⟩
          exact absurd ((checksumRejects_true_iff digest c? _).mpr ⟨c, hc0, hc1, hcd⟩) hcr
    · intro hnone
      subst hnone
      have hcr : checksumRejects digest none
          (combineList (fun j => if j = i then some d
            else (resetOp st ⟨u, some i, n, none, some d⟩).staging u j)
          (List.range op.totalChunks)).1 = false := rfl
      simp only [hcr, Bool.false_eq_true, if_false]
      rw [performRestore_restoreCalls]
      show (resetOp st ⟨u, some i, n, none, some d⟩).restoreCalls + 1 = st.restoreCalls + 1
      rw [resetOp_restoreCalls]

/-- Witness for C9 (amended) at concrete inputs: the iff instantiated
with checksum `"A"`, and the no-checksum case invoking the restore. -/
theorem c9_witness :
    ((restoreStep decodeBooks digestConst "T" stEmpty
          ⟨"u", none, 1, some "A", some [7]⟩).2 = RestoreResponse.checksumMismatch ↔
      ∃ c, (some "A" : Option String) = some c ∧ c ≠ "" ∧ digestConst [7] ≠ c) ∧
      ((none : Option String) = none →
        (restoreStep decodeBooks digestConst "T" stEmpty
            ⟨"u", none, 1, none, some [7]⟩).1.restoreCalls = stEmpty.restoreCalls + 1) :=
  ⟨((c9_checksum_skip_amended decodeBooks digestConst "T" stEmpty).1 "u" 1
      (some "A") [7]).1,
   ((c9_checksum_skip_amended decodeBooks digestConst "T" stEmpty).1 "u" 1
      none [7]).2⟩

/-- Claim C4: a Range request with `start >= L` fails with 416 and
serves no bytes; a Range request with `end >= L` (and resolved
`start < L`) clamps the end to `L - 1` and succeeds as partial content
(206) with a `Content-Range` descriptor `start-(L-1)/L`, never an
error. -/
theorem c4_range_negotiation (file : Bytes) (cs : Int) :
    (∀ (s : Nat) (e? : Option Nat), s ≥ file.length →
      backupDownload file (.given (some s) e?) cs = ⟨416, [], none, none⟩) ∧
    (∀ (s? : Option Nat) (e : Nat), s?.getD 0 < file.length → e ≥ file.length →
      (backupDownload file (.given s? (some e)) cs).status = 206 ∧
        (backupDownload file (.given s? (some e)) cs).contentRange =
          some (s?.getD 0, file.length - 1, file.length)) := by
  constructor
  · intro s e? hs
    unfold backupDownload
    dsimp only [Option.getD_some]
    rw [if_pos hs]
  · intro s? e hs he
    unfold backupDownload
    dsimp only [Option.getD_some]
    rw [if_neg (by omega), if_pos he]
    exact ⟨rfl, rfl⟩

/-- Witness for C4 at concrete inputs: a 2-byte archive, start 5 gives
416 with an empty body; start 0 with end 7 gives 206 clamped to
`0-1/2`. -/
theorem c4_witness :
    ((5 : Nat) ≥ ([5, 6] : Bytes).length ∧
      backupDownload [5, 6] (.given (some 5) none) 1 = ⟨416, [], none, none⟩) ∧
      ((some 0 : Option Nat).getD 0 < ([5, 6] : Bytes).length ∧
        (7 : Nat) ≥ ([5, 6] : Bytes).length ∧
        (backupDownload [5, 6] (.given (some 0) (some 7)) 1).status = 206 ∧
        (backupDownload [5, 6] (.given (some 0) (some 7)) 1).contentRange =
          some ((some 0 : Option Nat).getD 0, ([5, 6] : Bytes).length - 1,
            ([5, 6] : Bytes).length)) :=
  ⟨⟨by decide, (c4_range_negotiation [5, 6] 1).1 5 none (by decide)⟩,
   by decide, by decide,
   ((c4_range_negotiation [5, 6] 1).2 (some 0) 7 (by decide) (by decide)).1,
   ((c4_range_negotiation [5, 6] 1).2 (some 0) 7 (by decide) (by decide)).2⟩

/-- Claim C8: for every archive and every list of non-overlapping
in-bounds ranges covering `[0, L)` in offset order, the concatenation
of the bytes streamed for those range requests equals the bytes
streamed by a single full download (with any positive chunk size). -/
theorem c8_range_concat (file : Bytes) (cs : Int) (rs : List (Nat × Nat))
    (hcov : covers file.length 0 rs = true) (hcs : 1 ≤ cs) :
    ((rs.map (fun r =>
        (backupDownload file (.given (some r.1) (some r.2)) cs).body)).flatten) =
      (backupDownload file .absent cs).body := by
  rw [covers_join file cs hcs rs 0 hcov, backupDownload_full_body file cs hcs]
  exact List.drop_zero file

/-- Witness for C8 at a concrete input: ranges `0-1` and `2-4` of a
5-byte archive, chunk size 2. -/
theorem c8_witness :
    covers ([1, 2, 3, 4, 5] : Bytes).length 0 [(0, 1), (2, 4)] = true ∧
      (1 : Int) ≤ 2 ∧
      ((([(0, 1), (2, 4)] : List (Nat × Nat)).map (fun r =>
          (backupDownload [1, 2, 3, 4, 5] (.given (some r.1) (some r.2)) 2).body)).flatten) =
        (backupDownload [1, 2, 3, 4, 5] .absent 2).body :=
  ⟨by decide, by decide,
   c8_range_concat [1, 2, 3, 4, 5] 2 [(0, 1), (2, 4)] (by decide) (by decide)⟩

/-- Claim C10, counterexample.  The claim says that for every
`chunk_size <= 0` the streaming loop terminates immediately and the
body contains zero bytes.  That holds for `chunk_size = 0`, but for a
negative chunk size Python's `f.read(negative)` returns the whole rest
of the file: requesting bytes `1-1` of `[5, 6, 7]` with
`chunk_size = -1` streams `[6, 7]` — two bytes, not zero (and more
than the advertised Content-Length of 1). -/
theorem c10_counterexample :
    ((-1 : Int) ≤ 0) ∧
      (backupDownload [5, 6, 7] (.given (some 1) (some 1)) (-1)).body = [6, 7] ∧
      (backupDownload [5, 6, 7] (.given (some 1) (some 1)) (-1)).contentLength =
        some 1 :=
  ⟨by decide, by decide, by decide⟩

/-- Claim C10 (amended): for a resolved in-bounds window
`s ≤ e < L`: with `chunk_size = 0` the loop breaks on the first empty
read, so the body is empty even though `Content-Length` still
advertises `e - s + 1`; with `chunk_size < 0` the single `f.read`
returns everything from the seek position to end of file, so the body
is the whole suffix from `s` (not zero bytes as the original claim
said); with `chunk_size >= 1` the loop yields exactly `e - s + 1`
bytes. -/
theorem c10_chunk_size_amended (file : Bytes) (s e : Nat)
    (hse : s ≤ e) (he : e < file.length) :
    ((backupDownload file (.given (some s) (some e)) 0).body = [] ∧
      (backupDownload file (.given (some s) (some e)) 0).contentLength =
        some ((e : Int) - (s : Int) + 1)) ∧
    (∀ cs : Int, cs < 0 →
      (backupDownload file (.given (some s) (some e)) cs).body = file.drop s) ∧
    (∀ cs : Int, 1 ≤ cs →
      (backupDownload file (.given (some s) (some e)) cs).body.length = e - s + 1) := by
  refine ⟨⟨?_, ?_⟩, ?_, ?_⟩
  · unfold backupDownload
    dsimp only [Option.getD_some]
    rw [if_neg (by omega), if_neg (by omega)]
    exact genLoop_zero file s _
  · unfold backupDownload
    dsimp only [Option.getD_some]
    rw [if_neg (by omega), if_neg (by omega)]
  · intro cs hcs
    unfold backupDownload
    dsimp only [Option.getD_some]
    rw [if_neg (by omega), if_neg (by omega)]
    exact genLoop_neg file cs hcs s _ (by omega) (by omega) (by omega)
  · intro cs hcs
    rw [backupDownload_range_body file cs hcs s e hse he]
    rw [List.length_take, List.length_drop]
    omega

/-- Witness for C10 (amended) at a concrete input: window `1-1` of
`[5, 6, 7]`. -/
theorem c10_witness :
    (1 : Nat) ≤ 1 ∧ (1 : Nat) < ([5, 6, 7] : Bytes).length ∧
      ((backupDownload [5, 6, 7] (.given (some 1) (some 1)) 0).body = [] ∧
        (backupDownload [5, 6, 7] (.given (some 1) (some 1)) 0).contentLength =
          some ((1 : Int) - (1 : Int) + 1)) ∧
      (backupDownload [5, 6, 7] (.given (some 1) (some 1)) (-1)).body =
        ([5, 6, 7] : Bytes).drop 1 ∧
      (backupDownload [5, 6, 7] (.given (some 1) (some 1)) 2).body.length = 1 - 1 + 1 :=
  ⟨by decide, by decide,
   (c10_chunk_size_amended [5, 6, 7] 1 1 (by decide) (by decide)).1,
   (c10_chunk_size_amended [5, 6, 7] 1 1 (by decide) (by decide)).2.1 (-1) (by decide),
   (c10_chunk_size_amended [5, 6, 7] 1 1 (by decide) (by decide)).2.2 2 (by decide)⟩

end BackupRestore
